import Mathlib

/-!
Verification of the string-case-conversion core (snake / camel / dot / kebab).

The JavaScript sources are embedded shallowly over `List Char` / `String`,
with JavaScript runtime values modelled by `JSValue`.  The model is ASCII:
the spec's non-goals limit the core to ASCII word/digit/separator
classification, and every character class in the source
(`\w`, `\s`, `[a-z]`, `[A-Z]`, `\d`) is ASCII in the regexes used.
-/

/-- A JavaScript runtime value, as far as the validators care: the four
conversion entry points only distinguish `null`, `undefined`, strings, and
other (non-string) primitives, of which numbers and booleans are modelled. -/
inductive JSValue where
  | null
  | undefined
  | str (s : String)
  | num (n : Int)
  | bool (b : Bool)
deriving DecidableEq, Repr

deriving instance DecidableEq for Except

/-- JavaScript `typeof` on the modelled values (`typeof null` is "object"). -/
def jsTypeof : JSValue → String
  | .null => "object"
  | .undefined => "undefined"
  | .str _ => "string"
  | .num _ => "number"
  | .bool _ => "boolean"

/-- The ASCII whitespace characters matched by the sources' `\s` and by
`String.prototype.trim`: space, tab, newline, carriage return, vertical
tab, form feed. -/
def isSpaceJS (c : Char) : Bool :=
  c = ' ' || c = '\t' || c = '\n' || c = '\r' || c = '\x0b' || c = '\x0c'

/-- The regex class `\w`: ASCII letter, ASCII digit, or underscore. -/
def isWordChar (c : Char) : Bool :=
  c.isAlpha || c.isDigit || c = '_'

/-- JavaScript `toLowerCase` restricted to ASCII: each uppercase ASCII
letter maps to its lowercase partner, everything else is unchanged. -/
def toLowerJS (c : Char) : Char :=
  match c with
  | 'A' => 'a' | 'B' => 'b' | 'C' => 'c' | 'D' => 'd' | 'E' => 'e' | 'F' => 'f'
  | 'G' => 'g' | 'H' => 'h' | 'I' => 'i' | 'J' => 'j' | 'K' => 'k' | 'L' => 'l'
  | 'M' => 'm' | 'N' => 'n' | 'O' => 'o' | 'P' => 'p' | 'Q' => 'q' | 'R' => 'r'
  | 'S' => 's' | 'T' => 't' | 'U' => 'u' | 'V' => 'v' | 'W' => 'w' | 'X' => 'x'
  | 'Y' => 'y' | 'Z' => 'z'
  | c => c

/-- JavaScript `toUpperCase` restricted to ASCII. -/
def toUpperJS (c : Char) : Char :=
  match c with
  | 'a' => 'A' | 'b' => 'B' | 'c' => 'C' | 'd' => 'D' | 'e' => 'E' | 'f' => 'F'
  | 'g' => 'G' | 'h' => 'H' | 'i' => 'I' | 'j' => 'J' | 'k' => 'K' | 'l' => 'L'
  | 'm' => 'M' | 'n' => 'N' | 'o' => 'O' | 'p' => 'P' | 'q' => 'Q' | 'r' => 'R'
  | 's' => 'S' | 't' => 'T' | 'u' => 'U' | 'v' => 'V' | 'w' => 'W' | 'x' => 'X'
  | 'y' => 'Y' | 'z' => 'Z'
  | c => c

/-- `String.prototype.trim`: drop leading and trailing whitespace. -/
def trimJS (l : List Char) : List Char :=
  ((l.dropWhile isSpaceJS).reverse.dropWhile isSpaceJS).reverse

/-- `replace(/P+/g, r)` for a character class `P`: each maximal run of
characters satisfying `p` becomes the single character `r`.  The `Bool`
argument records whether the previous character was inside a run. -/
def collapseRunsGo (p : Char → Bool) (r : Char) : Bool → List Char → List Char
  | _, [] => []
  | inRun, c :: cs =>
    if p c then
      if inRun then collapseRunsGo p r true cs
      else r :: collapseRunsGo p r true cs
    else c :: collapseRunsGo p r false cs

/-- `replace(/P+/g, r)` on a whole string (starting outside any run). -/
def collapseRuns (p : Char → Bool) (r : Char) (l : List Char) : List Char :=
  collapseRunsGo p r false l

/-- `replace(/(P)(Q)/g, "$1-$2")`: insert a hyphen between each pair of
adjacent characters where the first satisfies `p` and the second `q`.  As
in JavaScript's global replace, both characters of a match are consumed
before scanning resumes. -/
def insertHyphenBetween (p q : Char → Bool) : List Char → List Char
  | [] => []
  | [c] => [c]
  | c :: d :: rest =>
    if p c && q d then c :: '-' :: d :: insertHyphenBetween p q rest
    else c :: insertHyphenBetween p q (d :: rest)

/-- `split(/[P]/)` at the character level: cut at every character
satisfying `p`, keeping empty fragments.  The sources split on *runs*
(`/[\s_-]+/`) and then filter out empty fragments; cutting at every
separator character and filtering gives the same word list, since a run of
separators contributes only empty fragments. -/
def splitOnPred (p : Char → Bool) : List Char → List (List Char)
  | [] => [[]]
  | c :: cs =>
    match splitOnPred p cs with
    | [] => [[]]
    | w :: ws => if p c then [] :: w :: ws else (c :: w) :: ws

/-! ## toSnakeCase (src/basic_prompt.js, lines 1-6)

```js
function toSnakeCase(str) {
    return str.trim().toLowerCase().replace(/\s+/g, '_');
}
```
-/

/-- The string pipeline of `toSnakeCase`. -/
def toSnakeCaseStr (s : String) : String :=
  String.mk (collapseRuns isSpaceJS '_' ((trimJS s.data).map toLowerJS))

/-- `toSnakeCase` on an arbitrary JavaScript value: the function performs
no validation, so calling it on a non-string throws a runtime `TypeError`
(`str.trim` is not a function), modelled as `none`. -/
def toSnakeCase : JSValue → Option String
  | .str s => some (toSnakeCaseStr s)
  | _ => none

/-! ## toCamelCase (src/basic_prompt.js, lines 69-108) -/

/-- `toCamelCase`'s sanitization `replace(/[^\w\s-]/g, "")`: keep word
characters, whitespace, and hyphens. -/
def camelSanitize (l : List Char) : List Char :=
  l.filter (fun c => isWordChar c || isSpaceJS c || c = '-')

/-- `toCamelCase`'s separator class `[\s_-]`. -/
def camelSep (c : Char) : Bool :=
  isSpaceJS c || c = '_' || c = '-'

/-- `toCamelCase`'s word list: sanitize, split on separators, then
`filter((word) => word.length > 0)`. -/
def camelWords (l : List Char) : List (List Char) :=
  (splitOnPred camelSep (camelSanitize l)).filter (fun w => decide (w.length > 0))

/-- One camel-case word after position 0:
`word.charAt(0).toUpperCase() + word.slice(1).toLowerCase()`. -/
def capitalizeJS : List Char → List Char
  | [] => []
  | c :: cs => toUpperJS c :: cs.map toLowerJS

/-- `toCamelCase`'s renderer: the word at index 0 fully lowercased, each
later word capitalized, joined with no separator. -/
def renderCamel : List (List Char) → List Char
  | [] => []
  | w :: ws => w.map toLowerJS ++ (ws.map capitalizeJS).flatten

/-- `toCamelCase` with the source's validation chain. -/
def toCamelCase (input : JSValue) : Except String String :=
  match input with
  | .null => .error "Input cannot be null"
  | .undefined => .error "Input cannot be undefined"
  | .num n => .error ("Input must be a string, received " ++ jsTypeof (.num n))
  | .bool b => .error ("Input must be a string, received " ++ jsTypeof (.bool b))
  | .str s =>
    if (trimJS s.data).length = 0 then
      .error "Input cannot be an empty or whitespace-only string"
    else
      let words := camelWords s.data
      if words.length = 0 then
        .error "Input contains no valid characters to convert"
      else
        .ok (String.mk (renderCamel words))

/-! ## toDotCase (src/basic_prompt.js, lines 123-158)

The source duplicates `toCamelCase`'s validation and tokenization verbatim;
the embedding keeps separate definitions so that the sharing is a theorem
(claim C10) rather than a modelling choice. -/

/-- `toDotCase`'s sanitization `replace(/[^\w\s-]/g, "")`. -/
def dotSanitize (l : List Char) : List Char :=
  l.filter (fun c => isWordChar c || isSpaceJS c || c = '-')

/-- `toDotCase`'s separator class `[\s_-]`. -/
def dotSep (c : Char) : Bool :=
  isSpaceJS c || c = '_' || c = '-'

/-- `toDotCase`'s word list. -/
def dotWords (l : List Char) : List (List Char) :=
  (splitOnPred dotSep (dotSanitize l)).filter (fun w => decide (w.length > 0))

/-- `toDotCase`'s renderer: every word lowercased, joined with `"."`. -/
def renderDot : List (List Char) → List Char
  | [] => []
  | [w] => w.map toLowerJS
  | w :: ws => w.map toLowerJS ++ '.' :: renderDot ws

/-- `toDotCase` with the source's validation chain. -/
def toDotCase (input : JSValue) : Except String String :=
  match input with
  | .null => .error "Input cannot be null"
  | .undefined => .error "Input cannot be undefined"
  | .num n => .error ("Input must be a string, received " ++ jsTypeof (.num n))
  | .bool b => .error ("Input must be a string, received " ++ jsTypeof (.bool b))
  | .str s =>
    if (trimJS s.data).length = 0 then
      .error "Input cannot be an empty or whitespace-only string"
    else
      let words := dotWords s.data
      if words.length = 0 then
        .error "Input contains no valid characters to convert"
      else
        .ok (String.mk (renderDot words))

/-! ## toKebabCase (src/chain_prompt.js, lines 1-21) -/

/-- The chained replaces of `toKebabCase`, in source order:
lower→upper hyphen insertion, letter→digit, digit→letter, whitespace and
underscore runs to `-`, strip `[^\w-]`, lowercase, collapse `-+`, trim
leading/trailing hyphens. -/
def kebabPipeline (l : List Char) : List Char :=
  let l1 := insertHyphenBetween Char.isLower Char.isUpper l
  let l2 := insertHyphenBetween Char.isAlpha Char.isDigit l1
  let l3 := insertHyphenBetween Char.isDigit Char.isAlpha l2
  let l4 := collapseRuns (fun c => isSpaceJS c || c = '_') '-' l3
  let l5 := l4.filter (fun c => isWordChar c || c = '-')
  let l6 := l5.map toLowerJS
  let l7 := collapseRuns (fun c => c = '-') '-' l6
  ((l7.dropWhile (fun c => c = '-')).reverse.dropWhile (fun c => c = '-')).reverse

/-- The string pipeline of `toKebabCase`. -/
def toKebabCaseStr (s : String) : String :=
  String.mk (kebabPipeline s.data)

/-- `toKebabCase` on a JavaScript value: `if (!str || typeof str !==
'string') return ''` means every non-string and the empty string map to
`''`; no error is ever thrown. -/
def toKebabCase : JSValue → String
  | .str s => if s = "" then "" else toKebabCaseStr s
  | _ => ""

/-! ## Character-level lemmas -/

theorem isSpaceJS_toLowerJS (c : Char) : isSpaceJS (toLowerJS c) = isSpaceJS c := by
  unfold toLowerJS; split <;> rfl

theorem isSpaceJS_toUpperJS (c : Char) : isSpaceJS (toUpperJS c) = isSpaceJS c := by
  unfold toUpperJS; split <;> rfl

theorem toLowerJS_eq_self (c : Char) (h : c.isUpper = false) : toLowerJS c = c := by
  unfold toLowerJS; split <;> first | rfl | exact absurd h (by decide)

theorem toLowerJS_cases (c : Char) :
    toLowerJS c = c ∨ (c.isUpper = true ∧ (toLowerJS c).isUpper = false) := by
  unfold toLowerJS; split <;> first | exact Or.inl rfl | exact Or.inr (by decide)

theorem toLowerJS_idem (c : Char) : toLowerJS (toLowerJS c) = toLowerJS c := by
  rcases toLowerJS_cases c with h | ⟨_, h2⟩
  · simp only [h]
  · exact toLowerJS_eq_self _ h2

theorem isUpper_false_of_isAlpha_false (c : Char) (h : c.isAlpha = false) :
    c.isUpper = false := by
  unfold Char.isAlpha at h
  simp only [Bool.or_eq_false_iff] at h
  exact h.1

theorem isLower_false_of_isAlpha_false (c : Char) (h : c.isAlpha = false) :
    c.isLower = false := by
  unfold Char.isAlpha at h
  simp only [Bool.or_eq_false_iff] at h
  exact h.2

theorem isSpaceJS_not_alnum (c : Char) (h : isSpaceJS c = true) :
    c.isLower = false ∧ c.isUpper = false ∧ c.isAlpha = false ∧ c.isDigit = false := by
  simp only [isSpaceJS, Bool.or_eq_true, decide_eq_true_eq] at h
  rcases h with ((((rfl | rfl) | rfl) | rfl) | rfl) | rfl <;> decide

/-! ## List-level lemmas -/

theorem dropWhile_eq_self_of_all {p : Char → Bool} {l : List Char}
    (h : ∀ c ∈ l, p c = false) : l.dropWhile p = l := by
  cases l with
  | nil => rfl
  | cons c cs =>
    rw [List.dropWhile_cons_of_neg]
    simp [h c (List.mem_cons_self c cs)]

theorem map_eq_self_of_fixed {f : Char → Char} :
    ∀ {l : List Char}, (∀ c ∈ l, f c = c) → l.map f = l
  | [], _ => rfl
  | c :: cs, h => by
    rw [List.map_cons, h c (List.mem_cons_self c cs),
      map_eq_self_of_fixed (fun d hd => h d (List.mem_cons_of_mem c hd))]

theorem mem_of_mem_splitOnPred {p : Char → Bool} {c : Char} :
    ∀ {l w : List Char}, w ∈ splitOnPred p l → c ∈ w → c ∈ l
  | [], w, hw, hc => by
    simp [splitOnPred] at hw
    subst hw
    simp at hc
  | d :: ds, w, hw, hc => by
    rw [splitOnPred] at hw
    split at hw
    · simp at hw; subst hw; simp at hc
    · rename_i v vs hm
      by_cases hd : p d = true
      · rw [if_pos hd] at hw
        rcases List.mem_cons.mp hw with rfl | hw2
        · simp at hc
        · exact List.mem_cons_of_mem d
            (mem_of_mem_splitOnPred (l := ds) (by rw [hm]; exact hw2) hc)
      · rw [if_neg hd] at hw
        rcases List.mem_cons.mp hw with rfl | hw2
        · rcases List.mem_cons.mp hc with rfl | hc2
          · exact List.mem_cons_self c ds
          · exact List.mem_cons_of_mem d (mem_of_mem_splitOnPred (l := ds)
              (by rw [hm]; exact List.mem_cons_self v vs) hc2)
        · exact List.mem_cons_of_mem d (mem_of_mem_splitOnPred (l := ds)
            (by rw [hm]; exact List.mem_cons_of_mem v hw2) hc)

theorem sep_false_of_mem_splitOnPred {p : Char → Bool} {c : Char} :
    ∀ {l w : List Char}, w ∈ splitOnPred p l → c ∈ w → p c = false
  | [], w, hw, hc => by
    simp [splitOnPred] at hw
    subst hw
    simp at hc
  | d :: ds, w, hw, hc => by
    rw [splitOnPred] at hw
    split at hw
    · simp at hw; subst hw; simp at hc
    · rename_i v vs hm
      by_cases hd : p d = true
      · rw [if_pos hd] at hw
        rcases List.mem_cons.mp hw with rfl | hw2
        · simp at hc
        · exact sep_false_of_mem_splitOnPred (l := ds) (by rw [hm]; exact hw2) hc
      · rw [if_neg hd] at hw
        rcases List.mem_cons.mp hw with rfl | hw2
        · rcases List.mem_cons.mp hc with rfl | hc2
          · simpa using hd
          · exact sep_false_of_mem_splitOnPred (l := ds)
              (by rw [hm]; exact List.mem_cons_self v vs) hc2
        · exact sep_false_of_mem_splitOnPred (l := ds)
            (by rw [hm]; exact List.mem_cons_of_mem v hw2) hc

theorem splitOnPred_all_nil {p : Char → Bool} {l : List Char}
    (h : ∀ c ∈ l, p c = true) : ∀ w ∈ splitOnPred p l, w = [] := by
  intro w hw
  cases hw' : w with
  | nil => rfl
  | cons c cs =>
    have h1 : p c = false :=
      sep_false_of_mem_splitOnPred hw (by rw [hw']; exact List.mem_cons_self c cs)
    have h2 : c ∈ l :=
      mem_of_mem_splitOnPred hw (by rw [hw']; exact List.mem_cons_self c cs)
    rw [h c h2] at h1
    exact absurd h1 (by simp)

theorem mem_collapseRunsGo {p : Char → Bool} {r c : Char} :
    ∀ {b : Bool} {l : List Char}, c ∈ collapseRunsGo p r b l →
      c = r ∨ (c ∈ l ∧ p c = false)
  | _, [], h => by simp [collapseRunsGo] at h
  | b, d :: ds, h => by
    rw [collapseRunsGo] at h
    by_cases hd : p d = true
    · rw [if_pos hd] at h
      cases b with
      | true =>
        rw [if_pos rfl] at h
        rcases mem_collapseRunsGo h with h' | ⟨hm, hp⟩
        · exact Or.inl h'
        · exact Or.inr ⟨List.mem_cons_of_mem d hm, hp⟩
      | false =>
        rw [if_neg (by simp)] at h
        rcases List.mem_cons.mp h with rfl | h2
        · exact Or.inl rfl
        · rcases mem_collapseRunsGo h2 with h' | ⟨hm, hp⟩
          · exact Or.inl h'
          · exact Or.inr ⟨List.mem_cons_of_mem d hm, hp⟩
    · rw [if_neg hd] at h
      rcases List.mem_cons.mp h with rfl | h2
      · exact Or.inr ⟨List.mem_cons_self c ds, by simpa using hd⟩
      · rcases mem_collapseRunsGo h2 with h' | ⟨hm, hp⟩
        · exact Or.inl h'
        · exact Or.inr ⟨List.mem_cons_of_mem d hm, hp⟩

theorem collapseRunsGo_eq_self {p : Char → Bool} {r : Char} (b : Bool) :
    ∀ {l : List Char}, (∀ c ∈ l, p c = false) → collapseRunsGo p r b l = l
  | [], _ => rfl
  | d :: ds, h => by
    rw [collapseRunsGo, if_neg (by simp [h d (List.mem_cons_self d ds)]),
      collapseRunsGo_eq_self false (fun c hc => h c (List.mem_cons_of_mem d hc))]

theorem collapseRunsGo_true_all {p : Char → Bool} {r : Char} :
    ∀ {l : List Char}, (∀ c ∈ l, p c = true) → collapseRunsGo p r true l = []
  | [], _ => rfl
  | d :: ds, h => by
    rw [collapseRunsGo, if_pos (h d (List.mem_cons_self d ds)), if_pos rfl]
    exact collapseRunsGo_true_all (fun c hc => h c (List.mem_cons_of_mem d hc))

theorem collapseRuns_all {p : Char → Bool} {r : Char} {l : List Char}
    (hne : l ≠ []) (h : ∀ c ∈ l, p c = true) : collapseRuns p r l = [r] := by
  cases l with
  | nil => exact absurd rfl hne
  | cons d ds =>
    unfold collapseRuns
    rw [collapseRunsGo, if_pos (h d (List.mem_cons_self d ds)), if_neg (by simp)]
    rw [collapseRunsGo_true_all (fun c hc => h c (List.mem_cons_of_mem d hc))]

theorem mem_insertHyphenBetween {p q : Char → Bool} {c : Char} :
    ∀ {l : List Char}, c ∈ insertHyphenBetween p q l → c = '-' ∨ c ∈ l
  | [], h => by simp [insertHyphenBetween] at h
  | [d], h => by
    rw [insertHyphenBetween] at h
    exact Or.inr h
  | d :: e :: rest, h => by
    rw [insertHyphenBetween] at h
    by_cases hde : p d && q e
    · rw [if_pos hde] at h
      rcases List.mem_cons.mp h with rfl | h1
      · exact Or.inr (List.mem_cons_self c _)
      · rcases List.mem_cons.mp h1 with rfl | h2
        · exact Or.inl rfl
        · rcases List.mem_cons.mp h2 with rfl | h3
          · exact Or.inr (List.mem_cons_of_mem d (List.mem_cons_self c rest))
          · rcases mem_insertHyphenBetween h3 with h' | h''
            · exact Or.inl h'
            · exact Or.inr (List.mem_cons_of_mem d (List.mem_cons_of_mem e h''))
    · rw [if_neg hde] at h
      rcases List.mem_cons.mp h with rfl | h1
      · exact Or.inr (List.mem_cons_self c _)
      · rcases mem_insertHyphenBetween h1 with h' | h''
        · exact Or.inl h'
        · exact Or.inr (List.mem_cons_of_mem d h'')

theorem insertHyphenBetween_eq_self {p q : Char → Bool} :
    ∀ {l : List Char}, (∀ c ∈ l, p c = false) → insertHyphenBetween p q l = l
  | [], _ => rfl
  | [d], _ => by rw [insertHyphenBetween]
  | d :: e :: rest, h => by
    rw [insertHyphenBetween,
      if_neg (by simp [h d (List.mem_cons_self d (e :: rest))]),
      insertHyphenBetween_eq_self (fun c hc => h c (List.mem_cons_of_mem d hc))]

theorem trimJS_eq_self {l : List Char} (h : ∀ c ∈ l, isSpaceJS c = false) :
    trimJS l = l := by
  unfold trimJS
  rw [dropWhile_eq_self_of_all h,
    dropWhile_eq_self_of_all (fun c hc => h c (List.mem_reverse.mp hc)),
    List.reverse_reverse]

theorem trimJS_eq_nil_of_all {l : List Char} (h : ∀ c ∈ l, isSpaceJS c = true) :
    trimJS l = [] := by
  unfold trimJS
  rw [List.dropWhile_eq_nil_iff.mpr (fun c hc => h c hc)]
  rfl

theorem mem_trimJS {l : List Char} {c : Char} (h : c ∈ trimJS l) : c ∈ l := by
  unfold trimJS at h
  have h1 := List.mem_reverse.mp h
  have h2 := List.mem_reverse.mp (List.dropWhile_subset _ h1)
  exact List.dropWhile_subset _ h2

theorem mem_collapseRuns {p : Char → Bool} {r c : Char} {l : List Char}
    (h : c ∈ collapseRuns p r l) : c = r ∨ (c ∈ l ∧ p c = false) := by
  unfold collapseRuns at h
  exact mem_collapseRunsGo h

theorem collapseRuns_eq_self {p : Char → Bool} {r : Char} {l : List Char}
    (h : ∀ c ∈ l, p c = false) : collapseRuns p r l = l :=
  collapseRunsGo_eq_self false h

/-! ## Word-list and renderer lemmas -/

/-- `hasWs s` holds when `s` contains a whitespace character. -/
def hasWs (s : String) : Bool := s.data.any isSpaceJS

theorem hasWs_eq_false_iff {s : String} :
    hasWs s = false ↔ ∀ c ∈ s.data, isSpaceJS c = false := by
  unfold hasWs
  simp [List.any_eq_false]

theorem camelWords_sep_false {l w : List Char} {c : Char}
    (hw : w ∈ camelWords l) (hc : c ∈ w) : camelSep c = false :=
  sep_false_of_mem_splitOnPred (List.mem_filter.mp hw).1 hc

theorem isSpaceJS_false_of_camelSep_false {c : Char} (h : camelSep c = false) :
    isSpaceJS c = false := by
  unfold camelSep at h
  simp only [Bool.or_eq_false_iff] at h
  exact h.1.1

theorem dotWords_sep_false {l w : List Char} {c : Char}
    (hw : w ∈ dotWords l) (hc : c ∈ w) : dotSep c = false :=
  sep_false_of_mem_splitOnPred (List.mem_filter.mp hw).1 hc

theorem isSpaceJS_false_of_dotSep_false {c : Char} (h : dotSep c = false) :
    isSpaceJS c = false := by
  unfold dotSep at h
  simp only [Bool.or_eq_false_iff] at h
  exact h.1.1

theorem mem_capitalizeJS {w : List Char} {c : Char} (h : c ∈ capitalizeJS w) :
    ∃ d ∈ w, c = toUpperJS d ∨ c = toLowerJS d := by
  match w with
  | [] => simp [capitalizeJS] at h
  | d :: ds =>
    rw [capitalizeJS] at h
    rcases List.mem_cons.mp h with rfl | h2
    · exact ⟨d, List.mem_cons_self d ds, Or.inl rfl⟩
    · rcases List.mem_map.mp h2 with ⟨e, he, rfl⟩
      exact ⟨e, List.mem_cons_of_mem d he, Or.inr rfl⟩

theorem mem_renderCamel {ws : List (List Char)} {c : Char} (h : c ∈ renderCamel ws) :
    ∃ w ∈ ws, ∃ d ∈ w, c = toLowerJS d ∨ c = toUpperJS d := by
  match ws with
  | [] => simp [renderCamel] at h
  | w :: ws' =>
    rw [renderCamel] at h
    rcases List.mem_append.mp h with h1 | h2
    · rcases List.mem_map.mp h1 with ⟨d, hd, rfl⟩
      exact ⟨w, List.mem_cons_self _ _, d, hd, Or.inl rfl⟩
    · rcases List.mem_flatten.mp h2 with ⟨lw, hlw, hc⟩
      rcases List.mem_map.mp hlw with ⟨w', hw', rfl⟩
      rcases mem_capitalizeJS hc with ⟨d, hd, hor⟩
      exact ⟨w', List.mem_cons_of_mem _ hw', d, hd, hor.symm⟩

theorem mem_renderDot {c : Char} :
    ∀ {ws : List (List Char)}, c ∈ renderDot ws →
      c = '.' ∨ ∃ w ∈ ws, ∃ d ∈ w, c = toLowerJS d
  | [], h => by simp [renderDot] at h
  | [w], h => by
    rw [renderDot] at h
    rcases List.mem_map.mp h with ⟨d, hd, rfl⟩
    exact Or.inr ⟨w, List.mem_cons_self _ _, d, hd, rfl⟩
  | w :: w' :: ws', h => by
    have he : renderDot (w :: w' :: ws') =
        w.map toLowerJS ++ '.' :: renderDot (w' :: ws') := rfl
    rw [he] at h
    rcases List.mem_append.mp h with h1 | h2
    · rcases List.mem_map.mp h1 with ⟨d, hd, rfl⟩
      exact Or.inr ⟨w, List.mem_cons_self _ _, d, hd, rfl⟩
    · rcases List.mem_cons.mp h2 with rfl | h3
      · exact Or.inl rfl
      · rcases mem_renderDot h3 with h' | ⟨v, hv, d, hd, hor⟩
        · exact Or.inl h'
        · exact Or.inr ⟨v, List.mem_cons_of_mem _ hv, d, hd, hor⟩

theorem renderCamel_no_space {l : List Char} {c : Char}
    (h : c ∈ renderCamel (camelWords l)) : isSpaceJS c = false := by
  rcases mem_renderCamel h with ⟨w, hw, d, hd, hor⟩
  have hd' : isSpaceJS d = false :=
    isSpaceJS_false_of_camelSep_false (camelWords_sep_false hw hd)
  rcases hor with rfl | rfl
  · rw [isSpaceJS_toLowerJS]; exact hd'
  · rw [isSpaceJS_toUpperJS]; exact hd'

theorem renderDot_no_space {l : List Char} {c : Char}
    (h : c ∈ renderDot (dotWords l)) : isSpaceJS c = false := by
  rcases mem_renderDot h with rfl | ⟨w, hw, d, hd, rfl⟩
  · decide
  · rw [isSpaceJS_toLowerJS]
    exact isSpaceJS_false_of_dotSep_false (dotWords_sep_false hw hd)

theorem mem_kebabPipeline_no_space {l : List Char} {c : Char}
    (hc : c ∈ kebabPipeline l) : isSpaceJS c = false := by
  simp only [kebabPipeline] at hc
  have h7 := List.dropWhile_subset _
    (List.mem_reverse.mp (List.dropWhile_subset _ (List.mem_reverse.mp hc)))
  rcases mem_collapseRuns h7 with rfl | ⟨h6, _⟩
  · decide
  · rcases List.mem_map.mp h6 with ⟨d, h5, rfl⟩
    rw [isSpaceJS_toLowerJS]
    have h4 := (List.mem_filter.mp h5).1
    rcases mem_collapseRuns h4 with rfl | ⟨_, hp⟩
    · decide
    · simp only [Bool.or_eq_false_iff] at hp
      exact hp.1

theorem mem_snakePipeline_no_space {s : String} {c : Char}
    (hc : c ∈ (toSnakeCaseStr s).data) : isSpaceJS c = false := by
  rcases mem_collapseRuns (l := (trimJS s.data).map toLowerJS) hc with rfl | ⟨_, hp⟩
  · decide
  · exact hp

/-! ## Pipeline-level lemmas -/

theorem toSnakeCaseStr_idem (s : String) :
    toSnakeCaseStr (toSnakeCaseStr s) = toSnakeCaseStr s := by
  have hchar : ∀ c ∈ (toSnakeCaseStr s).data,
      isSpaceJS c = false ∧ toLowerJS c = c := by
    intro c hc
    rcases mem_collapseRuns (l := (trimJS s.data).map toLowerJS) hc with rfl | ⟨hm, hp⟩
    · exact ⟨by decide, by decide⟩
    · refine ⟨hp, ?_⟩
      rcases List.mem_map.mp hm with ⟨d, _, rfl⟩
      exact toLowerJS_idem d
  show String.mk (collapseRuns isSpaceJS '_'
      ((trimJS (toSnakeCaseStr s).data).map toLowerJS)) = toSnakeCaseStr s
  rw [trimJS_eq_self (fun c hc => (hchar c hc).1),
    map_eq_self_of_fixed (fun c hc => (hchar c hc).2),
    collapseRuns_eq_self (fun c hc => (hchar c hc).1)]

/-- A punctuation character: neither ASCII alphanumeric nor whitespace. -/
def isPunctChar (c : Char) : Bool := !(c.isAlpha || c.isDigit) && !isSpaceJS c

theorem isPunctChar_spec {c : Char} (h : isPunctChar c = true) :
    c.isAlpha = false ∧ c.isDigit = false ∧ isSpaceJS c = false := by
  unfold isPunctChar at h
  simp only [Bool.and_eq_true, Bool.not_eq_true', Bool.or_eq_false_iff] at h
  exact ⟨h.1.1, h.1.2, h.2⟩

theorem camelWords_punct_nil {l : List Char}
    (h : ∀ c ∈ l, isPunctChar c = true) : camelWords l = [] := by
  unfold camelWords
  rw [List.filter_eq_nil_iff]
  intro w hw
  have hsep : ∀ c ∈ camelSanitize l, camelSep c = true := by
    intro c hc
    rcases List.mem_filter.mp hc with ⟨hcl, hkeep⟩
    rcases isPunctChar_spec (h c hcl) with ⟨ha, hd, hs⟩
    have hcu : c = '_' ∨ c = '-' := by
      simp only [isWordChar, Bool.or_eq_true, decide_eq_true_eq] at hkeep
      rcases hkeep with (((hA | hD) | hU) | hW) | hH
      · rw [ha] at hA; exact absurd hA (by simp)
      · rw [hd] at hD; exact absurd hD (by simp)
      · exact Or.inl hU
      · rw [hs] at hW; exact absurd hW (by simp)
      · exact Or.inr hH
    rcases hcu with rfl | rfl <;> decide
  rw [splitOnPred_all_nil hsep w hw]
  simp

theorem kebabPipeline_punct_nil {l : List Char}
    (h : ∀ c ∈ l, isPunctChar c = true) : kebabPipeline l = [] := by
  have hlow : ∀ c ∈ l, c.isLower = false := fun c hc =>
    isLower_false_of_isAlpha_false c (isPunctChar_spec (h c hc)).1
  have halpha : ∀ c ∈ l, c.isAlpha = false := fun c hc => (isPunctChar_spec (h c hc)).1
  have hdig : ∀ c ∈ l, c.isDigit = false := fun c hc => (isPunctChar_spec (h c hc)).2.1
  simp only [kebabPipeline]
  rw [insertHyphenBetween_eq_self hlow, insertHyphenBetween_eq_self halpha,
    insertHyphenBetween_eq_self hdig]
  have h5 : ∀ c ∈ ((collapseRuns (fun c => isSpaceJS c || c = '_') '-' l).filter
      (fun c => isWordChar c || c = '-')), c = '-' := by
    intro c hc
    rcases List.mem_filter.mp hc with ⟨h4, hkeep⟩
    rcases mem_collapseRuns h4 with rfl | ⟨hm, hp⟩
    · rfl
    · rcases isPunctChar_spec (h c hm) with ⟨ha, hd, hs⟩
      simp only [Bool.or_eq_false_iff] at hp
      simp only [isWordChar, ha, hd, Bool.false_or, Bool.or_eq_true,
        decide_eq_true_eq] at hkeep
      rcases hkeep with hU | hH
      · exact absurd hU (of_decide_eq_false hp.2)
      · exact hH
  have h6 : ∀ c ∈ (((collapseRuns (fun c => isSpaceJS c || c = '_') '-' l).filter
      (fun c => isWordChar c || c = '-')).map toLowerJS), c = '-' := by
    intro c hc
    rcases List.mem_map.mp hc with ⟨d, hd, rfl⟩
    rw [h5 d hd]
    decide
  have h7 : ∀ c ∈ collapseRuns (fun c => c = '-') '-'
      ((((collapseRuns (fun c => isSpaceJS c || c = '_') '-' l).filter
        (fun c => isWordChar c || c = '-')).map toLowerJS)), c = '-' := by
    intro c hc
    rcases mem_collapseRuns hc with rfl | ⟨hm, _⟩
    · rfl
    · exact h6 c hm
  have hdw : List.dropWhile (fun c => c = '-')
      (collapseRuns (fun c => c = '-') '-'
        ((((collapseRuns (fun c => isSpaceJS c || c = '_') '-' l).filter
          (fun c => isWordChar c || c = '-')).map toLowerJS))) = [] :=
    List.dropWhile_eq_nil_iff.mpr (fun c hc => by simp [h7 c hc])
  rw [hdw]
  rfl

theorem toSnakeCaseStr_punct_id {s : String}
    (h : ∀ c ∈ s.data, isPunctChar c = true) : toSnakeCaseStr s = s := by
  unfold toSnakeCaseStr
  have hs : ∀ c ∈ s.data, isSpaceJS c = false := fun c hc =>
    (isPunctChar_spec (h c hc)).2.2
  rw [trimJS_eq_self hs,
    map_eq_self_of_fixed (fun c hc => toLowerJS_eq_self c
      (isUpper_false_of_isAlpha_false c (isPunctChar_spec (h c hc)).1)),
    collapseRuns_eq_self hs]

theorem kebabPipeline_all_space {l : List Char} (hne : l ≠ [])
    (h : ∀ c ∈ l, isSpaceJS c = true) : kebabPipeline l = [] := by
  have hlow : ∀ c ∈ l, c.isLower = false := fun c hc => (isSpaceJS_not_alnum c (h c hc)).1
  have halpha : ∀ c ∈ l, c.isAlpha = false := fun c hc =>
    (isSpaceJS_not_alnum c (h c hc)).2.2.1
  have hdig : ∀ c ∈ l, c.isDigit = false := fun c hc =>
    (isSpaceJS_not_alnum c (h c hc)).2.2.2
  simp only [kebabPipeline]
  rw [insertHyphenBetween_eq_self hlow, insertHyphenBetween_eq_self halpha,
    insertHyphenBetween_eq_self hdig,
    collapseRuns_all hne (fun c hc => by simp [h c hc])]
  decide

theorem data_ne_nil_of_ne_empty {s : String} (h : s ≠ "") : s.data ≠ [] := by
  intro hd
  apply h
  cases s with
  | mk d =>
    cases hd
    decide

/-! ## Claim theorems -/

/-- C1 (counterexample): the claim says all four entry points raise the
validation failures, but `toKebabCase null` returns the output value `""`
(raising nothing), and `toSnakeCase` on a whitespace-only string returns
the output `""` instead of raising `EmptyInput`. -/
theorem kebab_null_no_failure :
    toKebabCase JSValue.null = "" ∧ toSnakeCase (JSValue.str "   ") = some "" := by
  decide

/-- C1 (corrected): `toCamelCase` and `toDotCase` implement the full
validation chain (null, undefined, non-string with the observed `typeof`
in the message, empty-after-trim); `toKebabCase` never fails and returns
`""` on null, undefined, non-strings, and whitespace-only strings;
`toSnakeCase` performs no validation: non-strings hit a runtime
`TypeError` (modelled `none`) and a whitespace-only string yields `""`. -/
theorem validation_behavior (s : String) (hs : trimJS s.data = [])
    (sw : String) (hw : ∀ c ∈ sw.data, isSpaceJS c = true) :
    toCamelCase .null = .error "Input cannot be null" ∧
    toDotCase .null = .error "Input cannot be null" ∧
    toCamelCase .undefined = .error "Input cannot be undefined" ∧
    toDotCase .undefined = .error "Input cannot be undefined" ∧
    (∀ n : Int, toCamelCase (.num n) =
      .error ("Input must be a string, received " ++ jsTypeof (.num n))) ∧
    (∀ b : Bool, toCamelCase (.bool b) =
      .error ("Input must be a string, received " ++ jsTypeof (.bool b))) ∧
    (∀ n : Int, toDotCase (.num n) =
      .error ("Input must be a string, received " ++ jsTypeof (.num n))) ∧
    (∀ b : Bool, toDotCase (.bool b) =
      .error ("Input must be a string, received " ++ jsTypeof (.bool b))) ∧
    toCamelCase (.str s) = .error "Input cannot be an empty or whitespace-only string" ∧
    toDotCase (.str s) = .error "Input cannot be an empty or whitespace-only string" ∧
    toKebabCase .null = "" ∧ toKebabCase .undefined = "" ∧
    (∀ n : Int, toKebabCase (.num n) = "") ∧
    (∀ b : Bool, toKebabCase (.bool b) = "") ∧
    toKebabCase (.str sw) = "" ∧
    toSnakeCase .null = none ∧ toSnakeCase .undefined = none ∧
    (∀ n : Int, toSnakeCase (.num n) = none) ∧
    (∀ b : Bool, toSnakeCase (.bool b) = none) ∧
    toSnakeCase (.str sw) = some "" := by
  refine ⟨rfl, rfl, rfl, rfl, fun n => rfl, fun b => rfl, fun n => rfl, fun b => rfl,
    ?_, ?_, rfl, rfl, fun n => rfl, fun b => rfl, ?_, rfl, rfl, fun n => rfl,
    fun b => rfl, ?_⟩
  · simp only [toCamelCase]
    rw [hs]
    rfl
  · simp only [toDotCase]
    rw [hs]
    rfl
  · by_cases hsw : sw = ""
    · subst hsw; decide
    · simp only [toKebabCase]
      rw [if_neg hsw]
      show String.mk (kebabPipeline sw.data) = ""
      rw [kebabPipeline_all_space (data_ne_nil_of_ne_empty hsw) hw]
  · show some (toSnakeCaseStr sw) = some ""
    have hws : toSnakeCaseStr sw = "" := by
      unfold toSnakeCaseStr
      rw [trimJS_eq_nil_of_all hw]
      decide
    rw [hws]

/-- Witness for the C1 theorem, at the empty string for both quantified
inputs. -/
theorem validation_behavior_witness :
    toCamelCase .null = .error "Input cannot be null" ∧
    toDotCase .null = .error "Input cannot be null" ∧
    toCamelCase .undefined = .error "Input cannot be undefined" ∧
    toDotCase .undefined = .error "Input cannot be undefined" ∧
    (∀ n : Int, toCamelCase (.num n) =
      .error ("Input must be a string, received " ++ jsTypeof (.num n))) ∧
    (∀ b : Bool, toCamelCase (.bool b) =
      .error ("Input must be a string, received " ++ jsTypeof (.bool b))) ∧
    (∀ n : Int, toDotCase (.num n) =
      .error ("Input must be a string, received " ++ jsTypeof (.num n))) ∧
    (∀ b : Bool, toDotCase (.bool b) =
      .error ("Input must be a string, received " ++ jsTypeof (.bool b))) ∧
    toCamelCase (.str "") = .error "Input cannot be an empty or whitespace-only string" ∧
    toDotCase (.str "") = .error "Input cannot be an empty or whitespace-only string" ∧
    toKebabCase .null = "" ∧ toKebabCase .undefined = "" ∧
    (∀ n : Int, toKebabCase (.num n) = "") ∧
    (∀ b : Bool, toKebabCase (.bool b) = "") ∧
    toKebabCase (.str "") = "" ∧
    toSnakeCase .null = none ∧ toSnakeCase .undefined = none ∧
    (∀ n : Int, toSnakeCase (.num n) = none) ∧
    (∀ b : Bool, toSnakeCase (.bool b) = none) ∧
    toSnakeCase (.str "") = some "" :=
  validation_behavior "" (by decide) "" (by decide)

/-- C2 (code_bug): the dot-case conversion inserts no boundary at
lowercase→uppercase transitions, so `toDotCase "HelloWorld"` evaluates to
`"helloworld"`, while the claim and the function's own doc examples say
`"hello.world"`; the separator-driven examples agree with the claim. -/
theorem toDotCase_case_transition_behavior :
    toDotCase (.str "HelloWorld") = .ok "helloworld" ∧
    toDotCase (.str "hello world") = .ok "hello.world" ∧
    toDotCase (.str "hello world! test") = .ok "hello.world.test" := by
  decide

/-- C3 (code_bug): kebab's only case boundary is lowercase→uppercase, so
the acronym run in `"HTTPSConnection"` gets no boundary and the code
evaluates to `"httpsconnection"`, while the claim and the source's own
example comment say `"https-connection"`; the other two documented
examples agree. -/
theorem toKebabCase_acronym_behavior :
    toKebabCase (.str "HTTPSConnection") = "httpsconnection" ∧
    toKebabCase (.str "helloWorld") = "hello-world" ∧
    toKebabCase (.str "user_full name!") = "user-full-name" := by
  decide

/-- C4 (counterexample): camel is not idempotent — it succeeds on
`"hello world"` with output `"helloWorld"`, yet re-applying it to that
output gives the different string `"helloworld"`. -/
theorem camel_not_idempotent :
    toCamelCase (.str "hello world") = .ok "helloWorld" ∧
    toCamelCase (.str "helloWorld") = .ok "helloworld" ∧
    ("helloworld" : String) ≠ "helloWorld" := by
  decide

/-- C4 (corrected): snake is idempotent on every string input (not only
punctuation-free ones), while camel, dot, and kebab each map one of their
own successful outputs to a different string. -/
theorem idempotence_by_style (s t : String)
    (h : toSnakeCase (.str s) = some t) :
    toSnakeCase (.str t) = some t ∧
    (toCamelCase (.str "hello world") = .ok "helloWorld" ∧
      toCamelCase (.str "helloWorld") = .ok "helloworld" ∧
      ("helloworld" : String) ≠ "helloWorld") ∧
    (toDotCase (.str "hello world") = .ok "hello.world" ∧
      toDotCase (.str "hello.world") = .ok "helloworld" ∧
      ("helloworld" : String) ≠ "hello.world") ∧
    (toKebabCase (.str "a!5") = "a5" ∧ toKebabCase (.str "a5") = "a-5" ∧
      ("a-5" : String) ≠ "a5") := by
  refine ⟨?_, by decide, by decide, by decide⟩
  simp only [toSnakeCase] at h
  have h2 := Option.some.inj h
  subst h2
  show some (toSnakeCaseStr (toSnakeCaseStr s)) = some (toSnakeCaseStr s)
  rw [toSnakeCaseStr_idem]

/-- Witness for the C4 theorem at `"a b"`, whose snake output is
`"a_b"`. -/
theorem idempotence_by_style_witness :
    toSnakeCase (.str "a_b") = some "a_b" ∧
    (toCamelCase (.str "hello world") = .ok "helloWorld" ∧
      toCamelCase (.str "helloWorld") = .ok "helloworld" ∧
      ("helloworld" : String) ≠ "helloWorld") ∧
    (toDotCase (.str "hello world") = .ok "hello.world" ∧
      toDotCase (.str "hello.world") = .ok "helloworld" ∧
      ("helloworld" : String) ≠ "hello.world") ∧
    (toKebabCase (.str "a!5") = "a5" ∧ toKebabCase (.str "a5") = "a-5" ∧
      ("a-5" : String) ≠ "a5") :=
  idempotence_by_style "a b" "a_b" (by decide)

/-- C5 (counterexample): on the all-punctuation input `"!!!"` the kebab
conversion does not raise `NoValidCharacters`; it returns the value `""`. -/
theorem kebab_punct_returns_value :
    toKebabCase (.str "!!!") = "" := by
  decide

/-- C5 (corrected): on a non-empty all-punctuation string, camel and dot
raise `NoValidCharacters`, kebab returns the empty string (it never
raises), and snake returns the input unchanged — a non-empty string that
is its own lowercasing. -/
theorem punct_only_by_style (s : String) (hne : s.data ≠ [])
    (h : ∀ c ∈ s.data, isPunctChar c = true) :
    toCamelCase (.str s) = .error "Input contains no valid characters to convert" ∧
    toDotCase (.str s) = .error "Input contains no valid characters to convert" ∧
    toKebabCase (.str s) = "" ∧
    toSnakeCase (.str s) = some s ∧ s ≠ "" ∧
    s.data.map toLowerJS = s.data := by
  have hsp : ∀ c ∈ s.data, isSpaceJS c = false := fun c hc =>
    (isPunctChar_spec (h c hc)).2.2
  have htrim : trimJS s.data = s.data := trimJS_eq_self hsp
  have htlen : ¬((trimJS s.data).length = 0) := by
    rw [htrim]
    intro hlen
    exact hne (List.length_eq_zero.mp hlen)
  refine ⟨?_, ?_, ?_, ?_, ?_, ?_⟩
  · simp only [toCamelCase]
    rw [if_neg htlen, camelWords_punct_nil h]
    rfl
  · simp only [toDotCase]
    have hdw : dotWords s.data = camelWords s.data := rfl
    rw [if_neg htlen, hdw, camelWords_punct_nil h]
    rfl
  · have hsne : s ≠ "" := by
      intro he; subst he; exact hne (by decide)
    simp only [toKebabCase]
    rw [if_neg hsne]
    show String.mk (kebabPipeline s.data) = ""
    rw [kebabPipeline_punct_nil h]
  · show some (toSnakeCaseStr s) = some s
    rw [toSnakeCaseStr_punct_id h]
  · intro he; subst he; exact hne (by decide)
  · exact map_eq_self_of_fixed (fun c hc => toLowerJS_eq_self c
      (isUpper_false_of_isAlpha_false c (isPunctChar_spec (h c hc)).1))

/-- Witness for the C5 theorem at `"!!!"`. -/
theorem punct_only_by_style_witness :
    toCamelCase (.str "!!!") = .error "Input contains no valid characters to convert" ∧
    toDotCase (.str "!!!") = .error "Input contains no valid characters to convert" ∧
    toKebabCase (.str "!!!") = "" ∧
    toSnakeCase (.str "!!!") = some "!!!" ∧ ("!!!" : String) ≠ "" ∧
    ("!!!" : String).data.map toLowerJS = ("!!!" : String).data :=
  punct_only_by_style "!!!" (by decide) (by decide)

/-- C6 (confirmed): camel splits only on separator runs — `"HelloWorld"`
tokenizes to the single word `"HelloWorld"` (no case-transition split, so
it renders as `"helloworld"`) — collapses separator runs, renders the
first word lowercased and later words capitalized with no join character,
and satisfies the five documented examples. -/
theorem toCamelCase_splitting_and_rendering :
    toCamelCase (.str "hello world") = .ok "helloWorld" ∧
    toCamelCase (.str "hello_world") = .ok "helloWorld" ∧
    toCamelCase (.str "hello-world") = .ok "helloWorld" ∧
    toCamelCase (.str "hello__world") = .ok "helloWorld" ∧
    toCamelCase (.str "hello world! test") = .ok "helloWorldTest" ∧
    camelWords (String.data "HelloWorld") = [String.data "HelloWorld"] ∧
    toCamelCase (.str "HelloWorld") = .ok "helloworld" := by
  decide

/-- C7 (confirmed): whenever a conversion returns an output string, that
string contains no whitespace characters, for all four entry points
(`toKebabCase` always returns an output). -/
theorem outputs_whitespace_free (v1 v2 v3 v4 : JSValue) (t1 t2 t4 : String)
    (h1 : toCamelCase v1 = .ok t1) (h2 : toDotCase v2 = .ok t2)
    (h4 : toSnakeCase v4 = some t4) :
    hasWs t1 = false ∧ hasWs t2 = false ∧
    hasWs (toKebabCase v3) = false ∧ hasWs t4 = false := by
  refine ⟨?_, ?_, ?_, ?_⟩
  · cases v1 with
    | str s =>
      simp only [toCamelCase] at h1
      by_cases he1 : (trimJS s.data).length = 0
      · rw [if_pos he1] at h1; exact absurd h1 (by simp)
      · rw [if_neg he1] at h1
        by_cases he2 : (camelWords s.data).length = 0
        · rw [if_pos he2] at h1; exact absurd h1 (by simp)
        · rw [if_neg he2] at h1
          have ht := Except.ok.inj h1
          subst ht
          exact hasWs_eq_false_iff.mpr (fun c hc => renderCamel_no_space hc)
    | null => exact absurd h1 (by simp [toCamelCase])
    | undefined => exact absurd h1 (by simp [toCamelCase])
    | num n => exact absurd h1 (by simp [toCamelCase])
    | bool b => exact absurd h1 (by simp [toCamelCase])
  · cases v2 with
    | str s =>
      simp only [toDotCase] at h2
      by_cases he1 : (trimJS s.data).length = 0
      · rw [if_pos he1] at h2; exact absurd h2 (by simp)
      · rw [if_neg he1] at h2
        by_cases he2 : (dotWords s.data).length = 0
        · rw [if_pos he2] at h2; exact absurd h2 (by simp)
        · rw [if_neg he2] at h2
          have ht := Except.ok.inj h2
          subst ht
          exact hasWs_eq_false_iff.mpr (fun c hc => renderDot_no_space hc)
    | null => exact absurd h2 (by simp [toDotCase])
    | undefined => exact absurd h2 (by simp [toDotCase])
    | num n => exact absurd h2 (by simp [toDotCase])
    | bool b => exact absurd h2 (by simp [toDotCase])
  · cases v3 with
    | str s =>
      simp only [toKebabCase]
      by_cases hs : s = ""
      · rw [if_pos hs]; rfl
      · rw [if_neg hs]
        exact hasWs_eq_false_iff.mpr (fun c hc => mem_kebabPipeline_no_space hc)
    | null => rfl
    | undefined => rfl
    | num n => rfl
    | bool b => rfl
  · cases v4 with
    | str s =>
      simp only [toSnakeCase] at h4
      have ht := Option.some.inj h4
      subst ht
      exact hasWs_eq_false_iff.mpr (fun c hc => mem_snakePipeline_no_space hc)
    | null => exact absurd h4 (by simp [toSnakeCase])
    | undefined => exact absurd h4 (by simp [toSnakeCase])
    | num n => exact absurd h4 (by simp [toSnakeCase])
    | bool b => exact absurd h4 (by simp [toSnakeCase])

/-- Witness for the C7 theorem at `"hello world"` under each style. -/
theorem outputs_whitespace_free_witness :
    hasWs "helloWorld" = false ∧ hasWs "hello.world" = false ∧
    hasWs (toKebabCase (JSValue.str "hello world")) = false ∧
    hasWs "hello_world" = false :=
  outputs_whitespace_free (.str "hello world") (.str "hello world")
    (.str "hello world") (.str "hello world") "helloWorld" "hello.world"
    "hello_world" (by decide) (by decide) (by decide)

/-- C8 (confirmed): each entry point is a pure function of the input value
(the sources read and write no shared state), so two calls on equal
inputs return equal results. -/
theorem conversions_deterministic (v w : JSValue) (h : v = w) :
    toSnakeCase v = toSnakeCase w ∧ toCamelCase v = toCamelCase w ∧
    toDotCase v = toDotCase w ∧ toKebabCase v = toKebabCase w := by
  subst h
  exact ⟨rfl, rfl, rfl, rfl⟩

/-- Witness for the C8 theorem at `"a b"`. -/
theorem conversions_deterministic_witness :
    toSnakeCase (JSValue.str "a b") = toSnakeCase (JSValue.str "a b") ∧
    toCamelCase (JSValue.str "a b") = toCamelCase (JSValue.str "a b") ∧
    toDotCase (JSValue.str "a b") = toDotCase (JSValue.str "a b") ∧
    toKebabCase (JSValue.str "a b") = toKebabCase (JSValue.str "a b") :=
  conversions_deterministic (JSValue.str "a b") (JSValue.str "a b") rfl

/-- C9 (confirmed): `toKebabCase` returns `""` — and, having return type
`String` in the model, can raise nothing — on null, undefined, every
non-string value, and the empty string: exactly the source's
`!str || typeof str !== 'string'` guard. -/
theorem toKebabCase_falsy_guard :
    toKebabCase .null = "" ∧ toKebabCase .undefined = "" ∧
    (∀ n : Int, toKebabCase (.num n) = "") ∧
    (∀ b : Bool, toKebabCase (.bool b) = "") ∧
    toKebabCase (.str "") = "" :=
  ⟨rfl, rfl, fun _ => rfl, fun _ => rfl, by decide⟩

/-- C10 (confirmed): camel and dot share identical validation and
tokenization: their word-list functions agree on every character list, and
on every input value one raises an error with a given message exactly when
the other does. -/
theorem camel_dot_shared_pipeline :
    (∀ l : List Char, camelWords l = dotWords l) ∧
    (∀ (v : JSValue) (m : String),
      toCamelCase v = .error m ↔ toDotCase v = .error m) := by
  constructor
  · intro l; rfl
  · intro v m
    cases v with
    | null => exact Iff.rfl
    | undefined => exact Iff.rfl
    | num n => exact Iff.rfl
    | bool b => exact Iff.rfl
    | str s =>
      simp only [toCamelCase, toDotCase]
      have hdw : dotWords s.data = camelWords s.data := rfl
      rw [hdw]
      by_cases h1 : (trimJS s.data).length = 0
      · rw [if_pos h1, if_pos h1]
      · rw [if_neg h1, if_neg h1]
        by_cases h2 : (camelWords s.data).length = 0
        · rw [if_pos h2, if_pos h2]
        · rw [if_neg h2, if_neg h2]
          constructor
          · intro hx; exact absurd hx (by simp)
          · intro hx; exact absurd hx (by simp)
